import Mathlib

/-!
# balboad: connection multiplexer and FPGA reconfiguration sequence

A shallow embedding of `src/balboad.c`.  Side effects are recorded as a trace of
`Event`s; a function that can call `die` (which ends the process) or that
performs an access outside an object returns a `Res` saying so.  C `int`s are
modelled by `Int` (array indices and sizes that are never negative by `Nat`),
bytes by natural numbers, and a `char *` by the list of bytes stored from the
pointer onwards.  Diagnostics printed to `stderr` are not part of the trace.
-/

namespace Balboad

/-- One `char` of memory, as its unsigned value. -/
abbrev Byte := Nat

/-- Largest value of a C `int`. -/
def INT_MAX : Int := 2147483647

/-- Observable actions of the daemon: the four hardware stubs, a `write` on the
programming device opened from `o_spidev`, a `write` on a socket, and `close`
of a client socket. `spi_write off block ret` is the call
`write(fd, bits + off, block.length)` and the value it returned. -/
inductive Event where
  | eim_enable
  | eim_disable
  | fpga_enable
  | fpga_disable
  | spi_open
  | spi_write (off : Int) (block : List Byte) (ret : Int)
  | spi_close
  | sock_write (fd : Int) (data : List Byte)
  | close (fd : Int)
  deriving DecidableEq, Repr

/-- How a call ends: it returns a value, the process ends in `die`, or the call
performs an operation C leaves undefined (a store outside an array, a signed
overflow). -/
inductive Res (α : Type) where
  | ok (v : α)
  | die
  | ub
  deriving DecidableEq, Repr

/-- Result of running a function: the events it performed, then how it ended. -/
structure Run (α : Type) where
  trace : List Event
  res : Res α
  deriving DecidableEq, Repr

/-- Events `tr` happen, then `r` runs. -/
def Run.after {α : Type} (tr : List Event) (r : Run α) : Run α :=
  ⟨tr ++ r.trace, r.res⟩

/-- Sequencing: `f` runs only when `x` returned. -/
def Run.andThen {α β : Type} (x : Run α) (f : α → Run β) : Run β :=
  match x.res with
  | .ok v => Run.after x.trace (f v)
  | .die => ⟨x.trace, .die⟩
  | .ub => ⟨x.trace, .ub⟩

/-- The programming device named by `o_spidev`: whether `open` succeeds, and
what `write(fd, bits + off, cnt)` returns. -/
structure SpiDev where
  openOk : Bool
  write : Int → Int → Int

/-- Block size `blksz` of `load_bitstream`. -/
def blksz : Int := 128

/-- The `for (i = 0; i < n; i += blksz)` loop of `load_bitstream`, entered at `i`. -/
def load_bitstream_loop (dev : SpiDev) (bits : List Byte) (n i : Int) : Run Unit :=
  if i < n then
    if INT_MAX < i + blksz then ⟨[], .ub⟩
    else
      let nwrite := if i + blksz < n then blksz else n - i
      let ret := dev.write i nwrite
      let ev := Event.spi_write i ((bits.drop i.toNat).take nwrite.toNat) ret
      if ret = -1 then ⟨[ev], .die⟩
      else if ret < nwrite then ⟨[ev], .die⟩
      else Run.after [ev] (load_bitstream_loop dev bits n (i + blksz))
  else ⟨[], .ok ()⟩
termination_by (n - i).toNat
decreasing_by
  simp only [blksz] at *
  omega

/-- `load_bitstream(bits, n)`: open the device (fatal on failure), write the
image in blocks, close. -/
def load_bitstream (dev : SpiDev) (bits : List Byte) (n : Int) : Run Unit :=
  if dev.openOk then
    Run.after [Event.spi_open]
      (Run.andThen (load_bitstream_loop dev bits n 0) fun _ => ⟨[Event.spi_close], .ok ()⟩)
  else ⟨[Event.spi_open], .die⟩

/-- One device write: offset into the image, bytes handed over, value returned. -/
structure SpiWrite where
  off : Int
  block : List Byte
  ret : Int
  deriving DecidableEq, Repr

/-- The device writes of a trace, in order. -/
def spiWrites : List Event → List SpiWrite
  | [] => []
  | Event.spi_write off block ret :: tr => ⟨off, block, ret⟩ :: spiWrites tr
  | _ :: tr => spiWrites tr

/-! ## C strings -/

/-- Contents of the C string stored at a pointer: the bytes before the first NUL. -/
def cstr (p : List Byte) : List Byte := p.takeWhile (fun c => c ≠ 0)

/-- `strlen(p)`. -/
def strlen (p : List Byte) : Nat := (cstr p).length

/-- `strcspn(s, reject)`: number of leading bytes of the string at `s` that are
neither the terminator nor a byte of `reject`. -/
def strcspn : List Byte → List Byte → Nat
  | [], _ => 0
  | c :: s, reject => if c = 0 ∨ c ∈ reject then 0 else strcspn s reject + 1

/-- `strcmp(a, b)`: zero exactly when the strings at `a` and `b` are equal;
otherwise the difference of the first pair of bytes that differ. A view that
ends stands for memory this model does not describe and reads as NUL. -/
def strcmp : List Byte → List Byte → Int
  | x :: a, y :: b => if x ≠ y then (x : Int) - (y : Int) else if x = 0 then 0 else strcmp a b
  | [], y :: _ => - (y : Int)
  | x :: _, [] => (x : Int)
  | [], [] => 0

/-- `beginswith(a, b)`: walk `b` up to its terminator; return 0 at the first
index where `a` differs, 1 otherwise. -/
def beginswith : List Byte → List Byte → Int
  | _, [] => 1
  | [], y :: _ => if y = 0 then 1 else 0
  | x :: a, y :: b => if y = 0 then 1 else if x ≠ y then 0 else beginswith a b

/-- The literal `"hi\n"` with its terminator. -/
def lit_hi : List Byte := [104, 105, 10, 0]

/-- The three bytes `ok\n` written by `get_new_client`. -/
def lit_ok : List Byte := [111, 107, 10]

/-- The four bytes `err\n` written by `handle_failure`. -/
def lit_err : List Byte := [101, 114, 114, 10]

/-- The literal `"core"` of `handle_event`, with its terminator. -/
def lit_core : List Byte := [99, 111, 114, 101, 0]

/-- The reject set `"/ \t\n\r"` of `handle_core`. -/
def core_reject : List Byte := [47, 32, 9, 10, 13]

/-! ## Environment -/

/-- What the system calls of `read_file` do on one path: whether `open` and
`fstat` succeed, the size `fstat` reports, whether `malloc` succeeds, and the
bytes `read` delivers (`none` when it returns -1). -/
structure FileView where
  openOk : Bool
  fstatOk : Bool
  st_size : Nat
  mallocOk : Bool
  read : Option (List Byte)

/-- Everything outside the program during one pass of the event loop. -/
structure Env where
  /-- Directory of the images, `o_streamdir`. -/
  o_streamdir : List Byte
  /-- The file system, by path. -/
  files : List Byte → FileView
  /-- The programming device at `o_spidev`. -/
  spidev : SpiDev
  /-- Value returned by `write(fd, data, data.length)` on a socket. -/
  sock_write : Int → List Byte → Int
  /-- Bytes delivered by `read(fd, buf, 1024)`; `none` when it returns -1. -/
  recv : Int → Option (List Byte)
  /-- Value returned by `accept`. -/
  accept : Int
  /-- Earlier contents of the 1024 bytes of stack that `buf` occupies. -/
  stack : List Byte
  /-- Outcome of `select`: `none` when it fails, else `FD_ISSET` afterwards. -/
  select : Option (Int → Bool)

/-! ## Image store and reconfiguration -/

/-- `read_file(fname, &flen)`: `none` is the null pointer; otherwise the buffer
(the bytes read, then the terminator) and the length stored in `flen`. When
`read` returns -1 the store `p[n] = 0` lands before the allocation. -/
def read_file (f : FileView) : Res (Option (List Byte × Int)) :=
  if f.openOk = false then .ok none
  else if f.fstatOk = false then .ok none
  else if 1024 * 1024 * 512 < f.st_size then .ok none
  else if f.mallocOk = false then .ok none
  else
    match f.read with
    | none => .ub
    | some d =>
      let got := d.take f.st_size
      .ok (some (got ++ [0], (got.length : Int)))

/-- The path built by `snprintf(fname, sizeof fname, "%s/%s", o_streamdir, corename)`. -/
def core_path (env : Env) (corename : List Byte) : List Byte :=
  (env.o_streamdir ++ [47] ++ corename).take 1023

/-- `load_core(corename)`, with `corename` given by its contents. -/
def load_core (env : Env) (corename : List Byte) : Run Int :=
  match read_file (env.files (core_path env corename)) with
  | .ub => ⟨[], .ub⟩
  | .die => ⟨[], .die⟩
  | .ok none => ⟨[], .ok 0⟩
  | .ok (some (bitstream, bitstream_len)) =>
    Run.after [Event.eim_disable, Event.fpga_disable]
      (Run.andThen (load_bitstream env.spidev bitstream bitstream_len) fun _ =>
        ⟨[Event.fpga_enable, Event.eim_enable], .ok 1⟩)

/-- What each hardware stub stands for, as written in its body. -/
inductive HwRole where
  | enable_mapping
  | disable_mapping
  | assert_reset
  | deassert_reset
  | stream
  deriving DecidableEq, Repr

/-- Role of an event in the reconfiguration sequence: `eim_enable` is "enable
mapping", `eim_disable` "disable mapping", `fpga_enable` "assert FPGA reset",
`fpga_disable` "deassert FPGA reset"; opening the device starts the stream. -/
def hwRole : Event → Option HwRole
  | Event.eim_enable => some HwRole.enable_mapping
  | Event.eim_disable => some HwRole.disable_mapping
  | Event.fpga_enable => some HwRole.assert_reset
  | Event.fpga_disable => some HwRole.deassert_reset
  | Event.spi_open => some HwRole.stream
  | _ => none

/-! ## Protocol handler -/

/-- `handle_failure(fd)`. -/
def handle_failure (env : Env) (fd : Int) : Run Unit :=
  ⟨[Event.sock_write fd lit_err], if env.sock_write fd lit_err ≠ 4 then .die else .ok ()⟩

/-- The string left in `core` by the first three statements of `handle_core`:
`strcpy(core, corename)`, `i = strcspn(core, "/ \t\n\r")`, `core[i] = 0`. The
array is represented by its initialised part. -/
def core_name (corename : List Byte) : List Byte :=
  let core := cstr corename ++ [0]
  let i := strcspn core core_reject
  let core := core.set i 0
  cstr core

/-- `handle_core(fd, corename)`; `corename` is the memory from the pointer on.
`strcpy` needs a terminated string that fits `core[1024]`. -/
def handle_core (env : Env) (_fd : Int) (corename : List Byte) : Run Unit :=
  if 0 ∉ corename ∨ 1024 ≤ strlen corename then ⟨[], .ub⟩
  else Run.andThen (load_core env (core_name corename)) fun _ => ⟨[], .ok ()⟩

/-- `handle_event(fd)`. -/
def handle_event (env : Env) (fd : Int) : Run Int :=
  match env.recv fd with
  | none => ⟨[], .die⟩
  | some data =>
    let msg := data.take 1024
    let n := msg.length
    let buf := msg ++ env.stack.drop n
    if 1024 ≤ n then ⟨[], .ub⟩
    else
      let buf := buf.set n 0
      if n = 0 then ⟨[], .ok (-1)⟩
      else if beginswith buf lit_core ≠ 0 then
        Run.andThen (handle_core env fd (buf.drop 5)) fun _ => ⟨[], .ok 0⟩
      else
        Run.andThen (handle_failure env fd) fun _ => ⟨[], .ok 0⟩

/-- `get_new_client(sock)`. -/
def get_new_client (env : Env) : Run Int :=
  let fd := env.accept
  if fd = -1 then ⟨[], .die⟩
  else
    match env.recv fd with
    | none => ⟨[], .die⟩
    | some data =>
      let msg := data.take 1024
      let buf := msg ++ env.stack.drop msg.length
      if strcmp buf lit_hi ≠ 0 then ⟨[], .ok (-1)⟩
      else
        ⟨[Event.sock_write fd lit_ok], if env.sock_write fd lit_ok ≠ 3 then .die else .ok fd⟩

/-! ## Event loop -/

/-- Capacity `nclient` of the `clients` array. -/
def nclient : Nat := 100

/-- The registry of `event_loop`: the `clients` array and its logical size `ci`. -/
structure Registry where
  clients : List Int
  ci : Nat
  deriving DecidableEq, Repr

/-- Lines 347-352 of `event_loop`: the listening socket is ready. `none` stands
for `continue`. The store `clients[ci++] = newfd` comes before the test
`ci > nclient`. -/
def accept_client (env : Env) (r : Registry) : Run (Option Registry) :=
  Run.andThen (get_new_client env) fun newfd =>
    if newfd = -1 then ⟨[], .ok none⟩
    else if r.clients.length ≤ r.ci then ⟨[], .ub⟩
    else
      let clients := r.clients.set r.ci newfd
      let ci := r.ci + 1
      if nclient < ci then ⟨[], .die⟩
      else ⟨[], .ok (some ⟨clients, ci⟩)⟩

/-- Lines 355-365: serve every ready client, mark those that closed with -1.
Returns the array and `did_close`. -/
def serve_clients (env : Env) (ready : Int → Bool) (clients : List Int) (ci i did_close : Nat) :
    Run (List Int × Nat) :=
  if i < ci then
    let c := clients.getD i 0
    if ready c then
      Run.andThen (handle_event env c) fun ret =>
        if ret = -1 then
          Run.after [Event.close c]
            (serve_clients env ready (clients.set i (-1)) ci (i + 1) (did_close + 1))
        else serve_clients env ready clients ci (i + 1) did_close
    else serve_clients env ready clients ci (i + 1) did_close
  else ⟨[], .ok (clients, did_close)⟩
termination_by ci - i

/-- Lines 367-372: the compaction loop, entered at `i`. -/
def compact (clients : List Int) (ci i : Nat) : Registry :=
  if i < ci then
    if clients.getD i 0 = -1 then
      compact (clients.set i (clients.getD (ci - 1) 0)) (ci - 1) (i + 1)
    else compact clients ci (i + 1)
  else ⟨clients, ci⟩
termination_by ci - i

/-- One pass of the `while (1)` body of `event_loop`. -/
def event_loop_body (env : Env) (listensock : Int) (r : Registry) : Run Registry :=
  match env.select with
  | none => ⟨[], .die⟩
  | some ready =>
    let served (r : Registry) : Run Registry :=
      Run.andThen (serve_clients env ready r.clients r.ci 0 0) fun out =>
        if out.2 ≠ 0 then ⟨[], .ok (compact out.1 r.ci 0)⟩
        else ⟨[], .ok ⟨out.1, r.ci⟩⟩
    if ready listensock then
      Run.andThen (accept_client env r) fun o =>
        match o with
        | none => ⟨[], .ok r⟩
        | some r1 => served r1
    else served r

/-! ## Concrete scenarios -/

/-- A path where `open` fails. -/
def noFile : FileView := ⟨false, false, 0, false, none⟩

/-- A readable file holding `d`. -/
def fileOf (d : List Byte) : FileView := ⟨true, true, d.length, true, some d⟩

/-- A programming device that opens and completes every write. -/
def goodDev : SpiDev := ⟨true, fun _ cnt => cnt⟩

/-- The default image directory `/usr/share/balboa`. -/
def streamdir : List Byte :=
  [47, 117, 115, 114, 47, 115, 104, 97, 114, 101, 47, 98, 97, 108, 98, 111, 97]

/-- The core name `demo`. -/
def demo : List Byte := [100, 101, 109, 111]

/-- The core name `empty`. -/
def emptyCore : List Byte := [101, 109, 112, 116, 121]

/-- A machine whose image directory holds `demo` (three bytes) and `empty` (no
bytes), whose sockets complete every write, whose stack is zeroed, where
`accept` returns descriptor 7, `select` reports the descriptors in `ready`, and
`read` on a socket delivers what `recv` says. -/
def machine (recv : Int → Option (List Byte)) (ready : Int → Bool) : Env where
  o_streamdir := streamdir
  files := fun path =>
    if path = streamdir ++ [47] ++ demo then fileOf [170, 85, 1]
    else if path = streamdir ++ [47] ++ emptyCore then fileOf []
    else noFile
  spidev := goodDev
  sock_write := fun _ data => data.length
  recv := recv
  accept := 7
  stack := List.replicate 1024 0
  select := some ready

/-- The listening socket of the scenarios. -/
def listensock : Int := 3

/-- Only the listening socket is ready. -/
def onlyListen : Int → Bool := fun fd => decide (fd = 3)

/-- Exactly descriptors 6 and 8 are ready. -/
def ready68 : Int → Bool := fun fd => decide (fd = 6 ∨ fd = 8)

/-- No socket has anything to deliver. -/
def quiet : Int → Option (List Byte) := fun _ => some []

/-- The message `coreXdemo\n`: it starts with `core`, not with `core `. -/
def msg_coreXdemo : List Byte := [99, 111, 114, 101, 88, 100, 101, 109, 111, 10]

/-- The five bytes `hi\n`, NUL, `x`. -/
def msg_hi_nul_x : List Byte := [104, 105, 10, 0, 120]

/-- The scenario machine on which `read` delivers nothing and the stack under
`buf` still holds `hi\n` and a NUL from earlier use. -/
def staleHello : Env :=
  { machine quiet onlyListen with stack := [104, 105, 10, 0] ++ List.replicate 1020 0 }

/-- The three bytes `hi\n`. -/
def msg_hi : List Byte := [104, 105, 10]

/-- A full registry: 100 established connections, descriptors 8 to 107. -/
def fullRegistry : Registry := ⟨(List.range 100).map fun k => (k : Int) + 8, 100⟩

/-- A registry array holding descriptors 5, 6 and 8, its other 97 slots unused. -/
def threeClients : List Int := [5, 6, 8] ++ List.replicate 97 0

/-- Descriptors 6 and 8 are at end of stream, descriptor 5 sends `hello`. -/
def twoClosed : Int → Option (List Byte) := fun fd =>
  if fd = 6 ∨ fd = 8 then some [] else some [104, 101, 108, 108, 111]

/-! ## Streaming the image -/

theorem Run.after_nil {α : Type} (r : Run α) : Run.after [] r = r := by
  cases r; rfl

theorem spiWrites_append (a b : List Event) :
    spiWrites (a ++ b) = spiWrites a ++ spiWrites b := by
  induction a with
  | nil => rfl
  | cons e a ih => cases e <;> simp [spiWrites, ih]

theorem cstr_no_nul (p : List Byte) : ∀ c ∈ cstr p, c ≠ 0 := by
  intro c hc
  have h := List.mem_takeWhile_imp hc
  simpa using h

theorem strcspn_terminated (t reject : List Byte) (ht : ∀ c ∈ t, c ≠ 0) :
    strcspn (t ++ [0]) reject = (t.takeWhile (fun c => decide (c ∉ reject))).length := by
  induction t with
  | nil => simp [strcspn]
  | cons c t ih =>
    have hc : c ≠ 0 := ht c (by simp)
    have ht2 : ∀ d ∈ t, d ≠ 0 := fun d hd => ht d (by simp [hd])
    by_cases hr : c ∈ reject
    · simp [strcspn, hc, hr, List.takeWhile_cons]
    · simp [strcspn, hc, hr, List.takeWhile_cons, ih ht2]

theorem cstr_set_nul (t : List Byte) (ht : ∀ c ∈ t, c ≠ 0) :
    ∀ i, i ≤ t.length → cstr ((t ++ [0]).set i 0) = t.take i := by
  induction t with
  | nil => intro i _; cases i <;> simp [cstr]
  | cons c t ih =>
    intro i hi
    have hc : c ≠ 0 := ht c (by simp)
    have ht2 : ∀ d ∈ t, d ≠ 0 := fun d hd => ht d (by simp [hd])
    cases i with
    | zero => simp [cstr]
    | succ i =>
      have := ih ht2 i (by simpa using hi)
      simp only [cstr] at this
      simp only [cstr, List.cons_append, List.set_cons_succ, List.takeWhile_cons, List.take_succ_cons]
      rw [this]
      simp [hc]

theorem take_length_takeWhile (q : Byte → Bool) (t : List Byte) :
    t.take (t.takeWhile q).length = t.takeWhile q := by
  induction t with
  | nil => simp
  | cons c t ih =>
    by_cases hq : q c = true
    · simp [List.takeWhile_cons, hq, ih]
    · simp [List.takeWhile_cons, hq]

theorem takeWhile_longest (q : Byte → Bool) (t : List Byte) :
    ∀ p : List Byte, p <+: t → (∀ c ∈ p, q c = true) → p.length ≤ (t.takeWhile q).length := by
  induction t with
  | nil =>
    intro p hp _
    have : p = [] := List.prefix_nil.mp hp
    simp [this]
  | cons c t ih =>
    intro p hp hall
    cases p with
    | nil => simp
    | cons d p =>
      obtain ⟨hd, hp2⟩ := List.cons_prefix_cons.mp hp
      have hq : q c = true := by rw [← hd]; exact hall d (by simp)
      have := ih p hp2 (fun x hx => hall x (by simp [hx]))
      simp [List.takeWhile_cons, hq, this]

theorem takeWhile_stop (q : Byte → Bool) (a b : List Byte) (x : Byte) (hx : q x = false) :
    (a ++ x :: b).takeWhile q = a.takeWhile q := by
  induction a with
  | nil => simp [List.takeWhile_cons, hx]
  | cons c a ih =>
    by_cases hq : q c = true
    · simp [List.takeWhile_cons, hq, ih]
    · simp [List.takeWhile_cons, hq]

/-- The name computed by `handle_core` is the run of leading bytes of the text
that are outside the reject set. -/
theorem core_name_eq (corename : List Byte) :
    core_name corename = (cstr corename).takeWhile (fun c => decide (c ∉ core_reject)) := by
  have hz := cstr_no_nul corename
  simp only [core_name]
  rw [strcspn_terminated _ _ hz, cstr_set_nul _ hz _ ( List.takeWhile_prefix _).length_le,
    take_length_takeWhile]

/-! ## Compaction of the registry -/

theorem compact_done (clients : List Int) (ci i : Nat) (h : ci ≤ i) :
    compact clients ci i = ⟨clients, ci⟩ := by
  rw [compact]
  simp [Nat.not_lt.mpr h]

theorem compact_marked (clients : List Int) (ci i : Nat) (h : i < ci)
    (hm : clients.getD i 0 = -1) :
    compact clients ci i = compact (clients.set i (clients.getD (ci - 1) 0)) (ci - 1) (i + 1) := by
  rw [compact]
  simp only [h, hm, if_true]

theorem compact_live (clients : List Int) (ci i : Nat) (h : i < ci)
    (hm : clients.getD i 0 ≠ -1) :
    compact clients ci i = compact clients ci (i + 1) := by
  rw [compact]
  simp only [h, hm, if_true, if_false]

/-- Moving the last entry into a marked slot and dropping the last slot keeps
the number of occurrences of every live handle. -/
theorem count_take_swap (l : List Int) (c i : Nat) (v : Int) (hv : v ≠ -1) (hi : i ≤ c)
    (hc : c < l.length) (hmark : l.getD i 0 = -1) :
    ((l.set i (l.getD c 0)).take c).count v = (l.take (c + 1)).count v := by
  have hgc : l.getD c 0 = l[c] := List.getD_eq_getElem l 0 hc
  have hgi : l[i] = -1 := by
    rw [← List.getD_eq_getElem l 0 (by omega)]; exact hmark
  rw [List.set_take, List.take_succ, List.getElem?_eq_getElem hc, hgc, List.count_append]
  rcases Nat.eq_or_lt_of_le hi with heq | hlt
  · subst heq
    rw [List.set_eq_of_length_le (by simp)]
    simp only [Option.toList, hgi]
    rw [List.count_singleton]
    have : ¬ ((-1 : Int) == v) = true := by simpa using fun h => hv h.symm
    simp [this]
  · have hlen : i < (l.take c).length := by simp; omega
    rw [List.count_set _ _ _ _ hlen]
    have hti : (l.take c)[i] = -1 := by rw [List.getElem_take]; exact hgi
    have h1 : ¬ ((-1 : Int) == v) = true := by simpa using fun h => hv h.symm
    simp only [hti, h1, if_false, Option.toList, Nat.sub_zero]
    rw [List.count_singleton]
    simp

/-- The compaction loop, entered anywhere, keeps the number of occurrences of
every live handle among the first `ci` entries. -/
theorem compact_count (v : Int) (hv : v ≠ -1) :
    ∀ (m : Nat) (clients : List Int) (ci i : Nat), ci - i ≤ m → ci ≤ clients.length →
      (((compact clients ci i).clients.take (compact clients ci i).ci).count v)
        = (clients.take ci).count v := by
  intro m
  induction m with
  | zero =>
    intro clients ci i hm _
    rw [compact_done clients ci i (by omega)]
  | succ m ih =>
    intro clients ci i hm hlen
    by_cases hlt : i < ci
    · by_cases hmark : clients.getD i 0 = -1
      · rw [compact_marked clients ci i hlt hmark,
          ih _ (ci - 1) (i + 1) (by omega) (by simp; omega)]
        have := count_take_swap clients (ci - 1) i v hv (by omega) (by omega) hmark
        rw [this]
        congr 2
        omega
      · rw [compact_live clients ci i hlt hmark]
        exact ih clients ci (i + 1) (by omega) hlen
    · rw [compact_done clients ci i (by omega)]

/-- C9: the compaction pass of `event_loop` drops no live connection. For a
registry whose logical size fits its array, every handle other than the mark -1
occurs among the first `ci` entries after the pass exactly as often as before. -/
theorem compact_keeps_live (clients : List Int) (ci : Nat) (hfit : ci ≤ clients.length)
    (v : Int) (hv : v ≠ -1) :
    ((compact clients ci 0).clients.take (compact clients ci 0).ci).count v
      = (clients.take ci).count v :=
  compact_count v hv ci clients ci 0 (by omega) hfit

/-- C9 on the registry 5, -1, -1, 9 of size 4: handle 9 is still there once. -/
theorem compact_keeps_live_witness :
    ((compact [5, -1, -1, 9] 4 0).clients.take (compact [5, -1, -1, 9] 4 0).ci).count 9 = 1 :=
  (compact_keeps_live [5, -1, -1, 9] 4 (by decide) 9 (by decide)).trans (by decide)

/-! ## Reconfiguration sequence -/

/-- Streaming the three bytes of `demo` on a device that completes every write. -/
theorem demo_stream :
    load_bitstream goodDev [170, 85, 1, 0] 3
      = ⟨[Event.spi_open, Event.spi_write 0 [170, 85, 1] 3, Event.spi_close], Res.ok ()⟩ := by
  have h2 : load_bitstream_loop goodDev [170, 85, 1, 0] 3 (0 + blksz) = ⟨[], Res.ok ()⟩ := by
    rw [load_bitstream_loop]; simp [blksz]
  have h1 : load_bitstream_loop goodDev [170, 85, 1, 0] 3 0
      = ⟨[Event.spi_write 0 [170, 85, 1] 3], Res.ok ()⟩ := by
    rw [load_bitstream_loop, h2]
    simp [blksz, INT_MAX, goodDev, Run.after]
  simp only [load_bitstream, h1]
  rfl

/-- Streaming an image of no bytes: the device is opened and closed, nothing is written. -/
theorem empty_stream (dev : SpiDev) (bits : List Byte) :
    spiWrites (load_bitstream dev bits 0).trace = [] ∧
    (dev.openOk = true →
      load_bitstream dev bits 0 = ⟨[Event.spi_open, Event.spi_close], Res.ok ()⟩) := by
  have h1 : load_bitstream_loop dev bits 0 0 = ⟨[], Res.ok ()⟩ := by
    rw [load_bitstream_loop]; simp
  simp only [load_bitstream, h1]
  cases dev.openOk <;> simp [Run.andThen, Run.after, spiWrites]

/-- Loading `demo` on the scenario machine, whatever the sockets do. -/
theorem load_core_demo_run (recv : Int → Option (List Byte)) (ready : Int → Bool) :
    load_core (machine recv ready) demo
      = ⟨[Event.eim_disable, Event.fpga_disable, Event.spi_open,
          Event.spi_write 0 [170, 85, 1] 3, Event.spi_close,
          Event.fpga_enable, Event.eim_enable], Res.ok 1⟩ := by
  have hf : read_file ((machine recv ready).files (core_path (machine recv ready) demo))
      = Res.ok (some ([170, 85, 1, 0], 3)) := by rfl
  simp only [load_core, hf]
  have hd : (machine recv ready).spidev = goodDev := rfl
  rw [hd, demo_stream]
  rfl

/-- Whenever the image is read and the stream completes, `load_core` performs
`eim_disable`, `fpga_disable`, the stream, `fpga_enable`, `eim_enable`, in that
order, and returns 1. -/
theorem load_core_sequence (env : Env) (corename bitstream : List Byte) (len : Int)
    (hread : read_file (env.files (core_path env corename)) = Res.ok (some (bitstream, len)))
    (hstream : (load_bitstream env.spidev bitstream len).res = Res.ok ()) :
    load_core env corename
      = ⟨[Event.eim_disable, Event.fpga_disable]
          ++ (load_bitstream env.spidev bitstream len).trace
          ++ [Event.fpga_enable, Event.eim_enable], Res.ok 1⟩ := by
  simp only [load_core, hread, Run.andThen, hstream, Run.after]
  simp

/-- C1, on the three-byte image `demo`: `load_core` calls `eim_disable`,
`fpga_disable`, streams, then `fpga_enable`, `eim_enable`. Read with the roles
the stubs give themselves, the reset is deasserted before the stream and
asserted after it, the reverse of the order the claim states. -/
theorem load_core_reset_order :
    load_core (machine quiet onlyListen) demo
      = ⟨[Event.eim_disable, Event.fpga_disable, Event.spi_open,
          Event.spi_write 0 [170, 85, 1] 3, Event.spi_close,
          Event.fpga_enable, Event.eim_enable], Res.ok 1⟩ ∧
    (load_core (machine quiet onlyListen) demo).trace.filterMap hwRole
      = [HwRole.disable_mapping, HwRole.deassert_reset, HwRole.stream,
          HwRole.assert_reset, HwRole.enable_mapping] := by
  rw [load_core_demo_run]
  exact ⟨rfl, by decide⟩

/-- C2 as stated fails on a zero-byte image: `read_file` returns a buffer, not
the null pointer, so `load_core` runs all four hardware stubs and
`load_bitstream`, and returns 1. -/
theorem load_core_zero_bytes_not_aborted :
    ((machine quiet onlyListen).files (core_path (machine quiet onlyListen) emptyCore)).st_size = 0 ∧
    ((machine quiet onlyListen).files (core_path (machine quiet onlyListen) emptyCore)).read
      = some [] ∧
    load_core (machine quiet onlyListen) emptyCore
      = ⟨[Event.eim_disable, Event.fpga_disable, Event.spi_open, Event.spi_close,
          Event.fpga_enable, Event.eim_enable], Res.ok 1⟩ := by
  refine ⟨by decide, by decide, ?_⟩
  have hf : read_file ((machine quiet onlyListen).files
      (core_path (machine quiet onlyListen) emptyCore)) = Res.ok (some ([0], 0)) := by decide
  simp only [load_core, hf]
  have hd : (machine quiet onlyListen).spidev = goodDev := rfl
  rw [hd, (empty_stream goodDev [0]).2 rfl]
  rfl

/-- On a file of size zero that opens, whose `fstat` and `malloc` succeed, and
whose `read` does not fail, `read_file` returns a buffer holding only the terminator, with
length 0: not the null pointer. -/
theorem read_file_zero_bytes (f : FileView) (d : List Byte)
    (hopen : f.openOk = true) (hstat : f.fstatOk = true) (hmalloc : f.mallocOk = true)
    (hread : f.read = some d) (hzero : f.st_size = 0) :
    read_file f = Res.ok (some ([0], 0)) := by
  simp only [read_file, hopen, hstat, hmalloc, hread, hzero]
  rfl

/-- C2, amended: when the image file cannot be opened or examined by fstat, or
is larger than 512 MiB, `load_core` returns 0 having called none of the hardware
stubs nor `load_bitstream`; on a file of size zero no device write is issued.
A zero-byte image that is read is not rejected: `load_core` calls `eim_disable`
and `fpga_disable`, then `load_bitstream` opens the device, writes nothing and
closes it, then `fpga_enable` and `eim_enable` are called and 1 is returned (the
process dies after the first two stubs if the device does not open). -/
theorem load_core_abort (env : Env) (corename : List Byte) :
    ((env.files (core_path env corename)).openOk = false ∨
      (env.files (core_path env corename)).fstatOk = false ∨
      536870912 < (env.files (core_path env corename)).st_size →
      load_core env corename = ⟨[], Res.ok 0⟩) ∧
    ((env.files (core_path env corename)).st_size = 0 →
      spiWrites (load_core env corename).trace = []) ∧
    (∀ d : List Byte,
      (env.files (core_path env corename)).openOk = true →
      (env.files (core_path env corename)).fstatOk = true →
      (env.files (core_path env corename)).mallocOk = true →
      (env.files (core_path env corename)).read = some d →
      (env.files (core_path env corename)).st_size = 0 →
      load_core env corename
        = (if env.spidev.openOk = true then
            ⟨[Event.eim_disable, Event.fpga_disable, Event.spi_open, Event.spi_close,
              Event.fpga_enable, Event.eim_enable], Res.ok 1⟩
          else ⟨[Event.eim_disable, Event.fpga_disable, Event.spi_open], Res.die⟩)) := by
  refine ⟨?_, ?_, ?_⟩
  · intro h
    have hf : read_file (env.files (core_path env corename)) = Res.ok none := by
      unfold read_file
      rcases h with h | h | h
      · simp [h]
      · simp [h]
      · have h2 : 1024 * 1024 * 512 < (env.files (core_path env corename)).st_size := by omega
        simp [h2]
    simp only [load_core, hf]
  · intro h
    simp only [load_core, read_file, h]
    cases (env.files (core_path env corename)).openOk <;>
    cases (env.files (core_path env corename)).fstatOk <;>
    cases (env.files (core_path env corename)).mallocOk <;>
    cases (env.files (core_path env corename)).read <;>
    simp [spiWrites, Run.after, Run.andThen]
    split <;> simp [spiWrites_append, spiWrites, (empty_stream _ _).1]
  · intro d hopen hstat hmalloc hread hzero
    have hf := read_file_zero_bytes _ d hopen hstat hmalloc hread hzero
    simp only [load_core, hf]
    by_cases hdev : env.spidev.openOk = true
    · rw [(empty_stream env.spidev [0]).2 hdev, if_pos hdev]
      rfl
    · have hlb : load_bitstream env.spidev [0] 0 = ⟨[Event.spi_open], Res.die⟩ := by
        simp only [load_bitstream, hdev, if_false]
        simp
      rw [hlb, if_neg hdev]
      rfl

/-- C2, amended, at a missing image nothing happens, and at the empty image
`empty` the whole sequence runs without a device write. -/
theorem load_core_abort_witness :
    load_core (machine quiet onlyListen) [110, 111] = ⟨[], Res.ok 0⟩ ∧
    load_core (machine quiet onlyListen) emptyCore
      = ⟨[Event.eim_disable, Event.fpga_disable, Event.spi_open, Event.spi_close,
          Event.fpga_enable, Event.eim_enable], Res.ok 1⟩ :=
  ⟨(load_core_abort (machine quiet onlyListen) [110, 111]).1 (Or.inl (by decide)),
    (load_core_abort (machine quiet onlyListen) emptyCore).2.2 [] (by decide) (by decide)
      (by decide) (by decide) (by decide)⟩

/-! ## Protocol handler -/

set_option maxRecDepth 8000

/-- C8: `handle_core` hands to `load_core` the string `core_name corename`, and
that string is the longest prefix of the text at `corename` free of `/`, space,
tab, newline and carriage return: it is a prefix, none of its bytes is in the
reject set, and no clean prefix is longer. So it holds no `/`, and when the text
has a `/`, the name lies within the bytes before the first one. The text is the
C string at `corename`; it must be terminated and fit `core[1024]`. -/
theorem handle_core_name (env : Env) (fd : Int) (corename : List Byte) :
    (0 ∈ corename → strlen corename < 1024 →
      handle_core env fd corename
        = Run.andThen (load_core env (core_name corename)) fun _ => ⟨[], Res.ok ()⟩) ∧
    core_name corename <+: cstr corename ∧
    (∀ c ∈ core_name corename, c ∉ core_reject) ∧
    (∀ p : List Byte, p <+: cstr corename → (∀ c ∈ p, c ∉ core_reject) →
      p.length ≤ (core_name corename).length) ∧
    47 ∉ core_name corename ∧
    (∀ a b : List Byte, cstr corename = a ++ 47 :: b → 47 ∉ a → core_name corename <+: a) := by
  have hclean : ∀ c ∈ core_name corename, c ∉ core_reject := by
    intro c hc
    rw [core_name_eq] at hc
    have := List.mem_takeWhile_imp hc
    simpa using this
  refine ⟨?_, ?_, hclean, ?_, ?_, ?_⟩
  · intro h0 hlen
    have hcond : ¬ (0 ∉ corename ∨ 1024 ≤ strlen corename) := by
      intro h
      rcases h with h | h
      · exact h h0
      · omega
    simp only [handle_core, hcond, if_false]
  · rw [core_name_eq]
    exact List.takeWhile_prefix _
  · intro p hp hall
    rw [core_name_eq]
    exact takeWhile_longest _ _ p hp (fun c hc => by simpa using hall c hc)
  · intro h
    exact hclean 47 h (by decide)
  · intro a b hab _
    rw [core_name_eq, hab, takeWhile_stop _ a b 47 (by decide)]
    exact List.takeWhile_prefix _

/-- C8 on the text `demo/x\n`: the name is `demo`. -/
theorem handle_core_name_witness :
    handle_core (machine quiet onlyListen) 7 [100, 101, 109, 111, 47, 120, 10, 0]
      = (Run.andThen (load_core (machine quiet onlyListen)
          (core_name [100, 101, 109, 111, 47, 120, 10, 0])) fun _ => ⟨[], Res.ok ()⟩) ∧
    core_name [100, 101, 109, 111, 47, 120, 10, 0] = demo :=
  ⟨(handle_core_name (machine quiet onlyListen) 7 [100, 101, 109, 111, 47, 120, 10, 0]).1
    (by decide) (by decide), by decide⟩

/-- A message that does not start with `core` is answered with `err\n` and the
connection stays open, provided it leaves room for the terminator and the reply
is written in full. -/
theorem handle_event_err (env : Env) (fd : Int) (data : List Byte)
    (hrecv : env.recv fd = some data) (hpos : data ≠ []) (hlen : data.length < 1024)
    (hno : beginswith ((data ++ env.stack.drop data.length).set data.length 0) lit_core = 0)
    (hwrite : env.sock_write fd lit_err = 4) :
    handle_event env fd = ⟨[Event.sock_write fd lit_err], Res.ok 0⟩ := by
  have htake : data.take 1024 = data := List.take_of_length_le (by omega)
  have hn0 : data.length ≠ 0 := fun h => hpos (List.length_eq_zero.mp h)
  have hn1 : ¬ (1024 ≤ data.length) := by omega
  simp only [handle_event, hrecv, htake, hn1, hn0, hno, if_false, ne_eq, not_true_eq_false,
    handle_failure, hwrite, Run.andThen, Run.after]
  simp

/-- A read that fills `buf` makes `handle_event` store the terminator outside it. -/
theorem handle_event_full_read (env : Env) (fd : Int) (data : List Byte)
    (hrecv : env.recv fd = some data) (hlen : 1024 ≤ data.length) :
    handle_event env fd = ⟨[], Res.ub⟩ := by
  have hn : (data.take 1024).length = 1024 := by simp; omega
  simp only [handle_event, hrecv, hn, le_refl, if_true]

/-- C10, on a message that fills the buffer: `read` returns 1024 and the store
`buf[n] = 0` falls one past the end of `buf[1024]`. -/
theorem handle_event_terminator_past_end :
    handle_event (machine (fun _ => some (List.replicate 1024 120)) onlyListen) 7
      = ⟨[], Res.ub⟩ := by
  have hrecv : (machine (fun _ => some (List.replicate 1024 120)) onlyListen).recv 7
      = some (List.replicate 1024 120) := rfl
  unfold handle_event
  simp only [hrecv, List.length_take, List.length_replicate, Nat.min_self, le_refl, if_true]

/-- C4, on the message `coreXdemo\n`, which does not begin with `core ` : no
`err\n` is written; `handle_core` runs on the bytes from offset 5 and `demo` is
loaded. -/
theorem handle_event_core_without_space :
    msg_coreXdemo.take 5 ≠ [99, 111, 114, 101, 32] ∧
    handle_event (machine (fun _ => some msg_coreXdemo) onlyListen) 7
      = ⟨[Event.eim_disable, Event.fpga_disable, Event.spi_open,
          Event.spi_write 0 [170, 85, 1] 3, Event.spi_close,
          Event.fpga_enable, Event.eim_enable], Res.ok 0⟩ := by
  refine ⟨by decide, ?_⟩
  have hcore : handle_core (machine (fun _ => some msg_coreXdemo) onlyListen) 7
      (((msg_coreXdemo.take 1024 ++ (List.replicate 1024 0).drop (msg_coreXdemo.take 1024).length).set
        (msg_coreXdemo.take 1024).length 0).drop 5)
      = ⟨[Event.eim_disable, Event.fpga_disable, Event.spi_open,
          Event.spi_write 0 [170, 85, 1] 3, Event.spi_close,
          Event.fpga_enable, Event.eim_enable], Res.ok ()⟩ := by
    unfold handle_core
    rw [if_neg (by decide)]
    have hn : core_name (((msg_coreXdemo.take 1024 ++
        (List.replicate 1024 0).drop (msg_coreXdemo.take 1024).length).set
        (msg_coreXdemo.take 1024).length 0).drop 5) = demo := by decide
    rw [hn, load_core_demo_run]
    rfl
  have hb : beginswith ((msg_coreXdemo.take 1024 ++
        (List.replicate 1024 0).drop (msg_coreXdemo.take 1024).length).set
        (msg_coreXdemo.take 1024).length 0) lit_core ≠ 0 := by decide
  have hn1 : ¬ (1024 ≤ (msg_coreXdemo.take 1024).length) := by decide
  have hn0 : ¬ ((msg_coreXdemo.take 1024).length = 0) := by decide
  have hstack : (machine (fun _ => some msg_coreXdemo) onlyListen).stack = List.replicate 1024 0 := rfl
  have hrecv : (machine (fun _ => some msg_coreXdemo) onlyListen).recv 7 = some msg_coreXdemo := rfl
  unfold handle_event
  simp only [hrecv, hstack, hn1, hn0, hb, if_true, if_false, hcore]
  rfl

/-! ## Handshake and registry -/

/-- C5, on the five received bytes `hi\n`, NUL, `x`: they are not the three
bytes `hi\n`, yet `strcmp` stops at the NUL, `get_new_client` writes `ok\n` and
returns the descriptor, and `event_loop` stores it in the registry. The same
happens when nothing is received and the buffer still holds an old `hi\n`. -/
theorem get_new_client_accepts_longer_hello :
    msg_hi_nul_x ≠ [104, 105, 10] ∧
    (staleHello.recv 7 = some [] ∧
      get_new_client staleHello = ⟨[Event.sock_write 7 lit_ok], Res.ok 7⟩) ∧
    get_new_client (machine (fun _ => some msg_hi_nul_x) onlyListen)
      = ⟨[Event.sock_write 7 lit_ok], Res.ok 7⟩ ∧
    accept_client (machine (fun _ => some msg_hi_nul_x) onlyListen) ⟨List.replicate 100 0, 0⟩
      = ⟨[Event.sock_write 7 lit_ok], Res.ok (some ⟨7 :: List.replicate 99 0, 1⟩)⟩ := by
  have hg : get_new_client (machine (fun _ => some msg_hi_nul_x) onlyListen)
      = ⟨[Event.sock_write 7 lit_ok], Res.ok 7⟩ := by decide
  refine ⟨by decide, ⟨rfl, by decide⟩, hg, ?_⟩
  unfold accept_client
  rw [hg]
  decide

/-- C6, with 100 connections established and a good handshake on a new one:
the store `clients[ci++] = newfd` is made at index 100, outside the 100-slot
array, before `ci > nclient` is tested. -/
theorem accept_client_stores_past_end :
    fullRegistry.clients.length = 100 ∧ fullRegistry.ci = 100 ∧
    accept_client (machine (fun _ => some msg_hi) onlyListen) fullRegistry
      = ⟨[Event.sock_write 7 lit_ok], Res.ub⟩ := by
  have hg : get_new_client (machine (fun _ => some msg_hi) onlyListen)
      = ⟨[Event.sock_write 7 lit_ok], Res.ok 7⟩ := by decide
  refine ⟨by decide, by decide, ?_⟩
  unfold accept_client
  rw [hg]
  decide

/-- C7, with descriptors 5, 6 and 8 registered and 6 and 8 both at end of
stream in one scan: both are closed and marked, and the compaction pass leaves
size 2 with a mark still in slot 1. The entry moved into slot 1 was itself
marked, and the loop does not look at slot 1 again. -/
theorem event_loop_leaves_mark :
    event_loop_body (machine twoClosed ready68) listensock ⟨threeClients, 3⟩
      = ⟨[Event.close 6, Event.close 8],
          Res.ok ⟨[5, -1, -1] ++ List.replicate 97 0, 2⟩⟩ := by
  have h6 : handle_event (machine twoClosed ready68) 6 = ⟨[], Res.ok (-1)⟩ := by decide
  have h8 : handle_event (machine twoClosed ready68) 8 = ⟨[], Res.ok (-1)⟩ := by decide
  have hs3 : serve_clients (machine twoClosed ready68) ready68
      ((threeClients.set 1 (-1)).set 2 (-1)) 3 3 2
      = ⟨[], Res.ok ((threeClients.set 1 (-1)).set 2 (-1), 2)⟩ := by
    rw [serve_clients]; simp
  have hs2 : serve_clients (machine twoClosed ready68) ready68 (threeClients.set 1 (-1)) 3 2 1
      = ⟨[Event.close 8], Res.ok ((threeClients.set 1 (-1)).set 2 (-1), 2)⟩ := by
    rw [serve_clients]
    have e : (threeClients.set 1 (-1)).getD 2 0 = 8 := by decide
    simp only [e, show (2 : Nat) < 3 from by decide, if_true, show ready68 8 = true from rfl, h8,
      hs3]
    rfl
  have hs1 : serve_clients (machine twoClosed ready68) ready68 threeClients 3 1 0
      = ⟨[Event.close 6, Event.close 8], Res.ok ((threeClients.set 1 (-1)).set 2 (-1), 2)⟩ := by
    rw [serve_clients]
    have e : threeClients.getD 1 0 = 6 := by decide
    simp only [e, show (1 : Nat) < 3 from by decide, if_true, show ready68 6 = true from rfl, h6,
      hs2]
    rfl
  have hs0 : serve_clients (machine twoClosed ready68) ready68 threeClients 3 0 0
      = ⟨[Event.close 6, Event.close 8], Res.ok ((threeClients.set 1 (-1)).set 2 (-1), 2)⟩ := by
    rw [serve_clients]
    have e : threeClients.getD 0 0 = 5 := by decide
    simp only [e, show (0 : Nat) < 3 from by decide, if_true, show ready68 5 = false from rfl, hs1]
    rfl
  have hc : compact ((threeClients.set 1 (-1)).set 2 (-1)) 3 0
      = ⟨[5, -1, -1] ++ List.replicate 97 0, 2⟩ := by
    rw [compact_live _ 3 0 (by decide) (by decide),
      compact_marked _ 3 1 (by decide) (by decide),
      compact_done _ 2 2 (by decide)]
    decide
  have hsel : (machine twoClosed ready68).select = some ready68 := rfl
  unfold event_loop_body
  simp only [hsel, show ready68 listensock = false from rfl, hs0]
  simp only [Run.andThen, Run.after, hc]
  decide

end Balboad
